import Mathlib

/-!
Verification of the polkrf.ru veteran-card scraper (`src/parse_polkrf.py`).

The Python source is shallowly embedded.  Pure string manipulation is
translated to functions on `List Char`; Python `str` operations are
modelled at the capability level for the character classes the program
actually meets (ASCII plus the basic Cyrillic block).  The HTML library
(BeautifulSoup) is modelled as the capability the design assigns to it:
a queryable document exposing exactly the selector results that
`fetch_card_details` and `fetch_image_urls_from_page` consume.  The
crawl loop of `main` is a fuel-indexed state machine over an explicit
environment recording fetch and write outcomes.
-/

/-! ### Python string primitives -/

/-- Prefix test on character lists; building block for substring
containment (Python `in` on strings). -/
def isPrefixC : List Char → List Char → Bool
  | [], _ => true
  | _ :: _, [] => false
  | a :: as, b :: bs => a == b && isPrefixC as bs

/-- Contiguous substring containment on character lists
(Python `needle in hay`). -/
def isInfixC (n : List Char) : List Char → Bool
  | [] => isPrefixC n []
  | c :: t => isPrefixC n (c :: t) || isInfixC n t

/-- Python `needle in hay` on strings. -/
def substrOf (needle hay : String) : Bool := isInfixC needle.data hay.data

/-- Python `str.lower`, modelled for ASCII letters and the basic
Cyrillic block (`А`..`Я` and `Ё`), the only scripts the scraper's
inputs use. -/
def pyLower (c : Char) : Char :=
  if 'A' ≤ c ∧ c ≤ 'Z' then Char.ofNat (c.toNat + 32)
  else if 'А' ≤ c ∧ c ≤ 'Я' then Char.ofNat (c.toNat + 32)
  else if c = 'Ё' then 'ё'
  else c

/-- Python `str.lower` on a whole string. -/
def lowerStr (s : String) : String := String.mk (s.data.map pyLower)

/-- Helper for Python `str.split()` with no argument: collect maximal
runs of non-whitespace characters. -/
def splitWsAux : List Char → List Char → List (List Char)
  | [], acc => if acc = [] then [] else [acc.reverse]
  | c :: cs, acc =>
    if c.isWhitespace then
      if acc = [] then splitWsAux cs [] else acc.reverse :: splitWsAux cs []
    else splitWsAux cs (c :: acc)

/-- Python `str.split()` with no argument. -/
def splitWs (l : List Char) : List (List Char) := splitWsAux l []

/-- `_clean_text` (src lines 63-66): `" ".join(text.split())`; the
`None` case is handled at call sites via `Option.getD ""`. -/
def cleanText (s : String) : String :=
  String.mk (List.intercalate [' '] (splitWs s.data))

/-- Python `str.strip()`. -/
def pyStrip (s : String) : String :=
  String.mk (((s.data.dropWhile Char.isWhitespace).reverse.dropWhile
    Char.isWhitespace).reverse)

/-- Python `str.split(sep)` for a one-character separator. -/
def splitOnC (sep : Char) : List Char → List (List Char)
  | [] => [[]]
  | c :: cs =>
    match splitOnC sep cs with
    | [] => [[c]]
    | r :: rs => if c = sep then [] :: r :: rs else (c :: r) :: rs

/-- Helper for `urlPath`: the characters after the first `://`, when
one is present. -/
def afterScheme : List Char → Option (List Char)
  | ':' :: '/' :: '/' :: rest => some rest
  | _ :: rest => afterScheme rest
  | [] => none

/-- `urllib.parse.urlparse(url).path`, modelled for the URL shapes the
program builds (absolute http/https URLs or plain paths): drop the
fragment and query, then, when a `://` is present, drop the scheme and
network location. -/
def urlPath (url : String) : String :=
  let l := (url.data.takeWhile (· ≠ '#')).takeWhile (· ≠ '?')
  match afterScheme l with
  | some rest => String.mk (rest.dropWhile (· ≠ '/'))
  | none => String.mk l

/-- `urllib.parse.urljoin(base, ref)`, modelled for the reference
shapes found in the site's markup: absolute URLs, scheme-relative,
host-relative and bare relative references against the path-less
base `https://polkrf.ru`. -/
def urljoin (base url : String) : String :=
  if substrOf "://" url then url
  else
    match url.data with
    | '/' :: '/' :: _ => "https:" ++ url
    | '/' :: _ => base ++ url
    | _ => base ++ "/" ++ url

/-! ### Module constants (src lines 14-23) -/

def BASE_URL : String := "https://polkrf.ru"

def PLACEHOLDER_URL : String :=
  "https://polkrf.ru/assets/index/img/veteran_card_placeholder.jpg"

def MAX_IMAGES : Nat := 100

/-! ### `extract_card_id` (src lines 47-60) -/

/-- `extract_card_id`: drop query/fragment, strip trailing slashes,
take the last `/`-segment, its last `-`-token, and the digit characters
of that token; `none` when no digit remains.  Python's `str.isdigit` is
modelled as ASCII `Char.isDigit`, the class the site's URLs use. -/
def extract_card_id (card_url : String) : Option String :=
  let path := ((urlPath card_url).data.reverse.dropWhile (· = '/')).reverse
  if path = [] then none
  else
    let last_segment := (splitOnC '/' path).getLastD []
    let tail := (splitOnC '-' last_segment).getLastD []
    let digits := tail.filter Char.isDigit
    if digits = [] then none else some (String.mk digits)

/-- The hyphen token `extract_card_id` inspects: the last `-`-token of
the last `/`-segment of the slash-stripped path. -/
def lastTok (card_url : String) : List Char :=
  let path := ((urlPath card_url).data.reverse.dropWhile (· = '/')).reverse
  (splitOnC '-' ((splitOnC '/' path).getLastD [])).getLastD []

/-- The id extraction as claim C2's words describe it: among the
hyphen-delimited tokens of the final path segment, the last token that
is a non-empty run of digits; absent when no token is numeric. -/
def spec_card_id (card_url : String) : Option String :=
  let path := ((urlPath card_url).data.reverse.dropWhile (· = '/')).reverse
  let toks := splitOnC '-' ((splitOnC '/' path).getLastD [])
  ((toks.filter fun t => !t.isEmpty && t.all Char.isDigit).getLast?).map String.mk

/-! ### Supporting lemmas about `splitOnC` and `extract_card_id` -/

theorem splitOnC_ne_nil (sep : Char) : ∀ l : List Char, splitOnC sep l ≠ [] := by
  intro l
  cases l with
  | nil => simp [splitOnC]
  | cons c cs =>
    simp only [splitOnC]
    cases splitOnC sep cs with
    | nil => simp
    | cons r rs =>
      by_cases h : c = sep <;> simp [h]

theorem filter_getLast_of_last (p : List Char → Bool) (l : List (List Char))
    (hne : l ≠ []) (hp : p (l.getLastD []) = true) :
    (l.filter p).getLast? = some (l.getLastD []) := by
  cases h : l.reverse with
  | nil =>
    exact absurd (by simpa using congrArg List.reverse h) hne
  | cons a t =>
    have ha : l.getLastD [] = a := by
      rw [List.getLastD_eq_getLast?, List.getLast?_eq_head?_reverse, h]
      rfl
    rw [ha] at hp ⊢
    rw [List.getLast?_eq_head?_reverse, ← List.filter_reverse, h,
      List.filter_cons, if_pos hp]
    rfl

theorem lastTok_of_path_nil (url : String)
    (hp : ((urlPath url).data.reverse.dropWhile (· = '/')).reverse = []) :
    lastTok url = [] := by
  simp only [lastTok]
  rw [hp]
  decide

theorem extract_card_id_digits (url : String) (i : String)
    (h : extract_card_id url = some i) :
    i ≠ "" ∧ i.data.all Char.isDigit = true := by
  simp only [extract_card_id] at h
  split at h
  · exact absurd h (by simp)
  · split at h
    · exact absurd h (by simp)
    · rename_i hd
      rw [Option.some.injEq] at h
      subst h
      constructor
      · intro hc
        exact hd (congrArg String.data hc)
      · rw [List.all_eq_true]
        intro c hc
        exact List.of_mem_filter hc

theorem extract_card_id_eq_none (url : String) :
    extract_card_id url = none ↔ (lastTok url).filter Char.isDigit = [] := by
  simp only [extract_card_id]
  split
  · rename_i hp
    refine iff_of_true rfl ?_
    rw [lastTok_of_path_nil url hp]
    rfl
  · split
    · rename_i hd
      exact iff_of_true rfl hd
    · rename_i hd
      exact iff_of_false (by simp) hd

/-! ### Claim C2 -/

/-- C2 counterexample.  The claim states id extraction returns the last
hyphen-delimited numeric run of the final path segment.  On
`.../foo-1x2` the code returns `"12"`, the digit characters filtered
out of the non-numeric final token `1x2`, which is not a numeric run of
the segment; on `.../ivanov-123-x` the segment's last numeric token is
`123`, yet the code returns nothing because the final token `x` holds
no digit. -/
theorem card_id_not_numeric_run_cx :
    extract_card_id "https://polkrf.ru/veterans/foo-1x2" = some "12" ∧
    spec_card_id "https://polkrf.ru/veterans/foo-1x2" = none ∧
    extract_card_id "https://polkrf.ru/veterans/ivanov-123-x" = none ∧
    spec_card_id "https://polkrf.ru/veterans/ivanov-123-x" = some "123" := by
  refine ⟨?_, ?_, ?_, ?_⟩ <;> decide

/-- C2 amended: id extraction returns the digit characters contained in
the last hyphen-delimited token of the URL's final path segment, absent
when that token holds no digit.  In particular `.../ivanov-ivan-12345`
yields `"12345"` and `.../unknown` yields nothing; when the final token
is itself a non-empty run of digits the code and the original claim's
reading agree. -/
theorem card_id_last_token_digits :
    extract_card_id "https://polkrf.ru/veterans/ivanov-ivan-12345" = some "12345" ∧
    extract_card_id "https://polkrf.ru/veterans/unknown" = none ∧
    (∀ url : String, lastTok url ≠ [] → (lastTok url).all Char.isDigit = true →
      extract_card_id url = some (String.mk (lastTok url)) ∧
      spec_card_id url = some (String.mk (lastTok url))) ∧
    (∀ url : String,
      (extract_card_id url = none ↔ (lastTok url).all (fun c => !c.isDigit) = true)) := by
  refine ⟨by decide, by decide, ?_, ?_⟩
  · intro url hne hall
    have hfilter : (lastTok url).filter Char.isDigit = lastTok url :=
      List.filter_eq_self.mpr (by simpa [List.all_eq_true] using hall)
    constructor
    · simp only [extract_card_id]
      split
      · rename_i hp
        exact absurd (lastTok_of_path_nil url hp) hne
      · split
        · rename_i hd
          exfalso
          exact hne (by rw [← hfilter]; exact hd)
        · exact congrArg (fun l => some (String.mk l)) hfilter
    · have hne' : (lastTok url).isEmpty = false := by
        cases hl : lastTok url with
        | nil => exact absurd hl hne
        | cons a t => rfl
      have hpred :
          (!(lastTok url).isEmpty && (lastTok url).all Char.isDigit) = true := by
        rw [hne', hall]
        rfl
      have hlast := filter_getLast_of_last (fun t => !t.isEmpty && t.all Char.isDigit)
        (splitOnC '-'
          (((splitOnC '/'
            (((urlPath url).data.reverse.dropWhile (· = '/')).reverse)).getLastD [])))
        (splitOnC_ne_nil '-' _) hpred
      simp only [spec_card_id]
      exact congrArg (Option.map String.mk) hlast
  · intro url
    rw [extract_card_id_eq_none, List.filter_eq_nil_iff, List.all_eq_true]
    constructor
    · intro h c hc
      simpa using h c hc
    · intro h c hc
      simpa using h c hc

/-- Witness for the amended C2 theorem: its conditional parts hold at
the concrete URL `.../ivanov-ivan-12345`, whose final token `12345` is
a non-empty digit run, and the `none`-characterization holds at
`.../unknown`. -/
theorem card_id_last_token_digits_witness :
    (lastTok "https://polkrf.ru/veterans/ivanov-ivan-12345" ≠ [] ∧
      extract_card_id "https://polkrf.ru/veterans/ivanov-ivan-12345" =
        some (String.mk (lastTok "https://polkrf.ru/veterans/ivanov-ivan-12345"))) ∧
    (extract_card_id "https://polkrf.ru/veterans/unknown" = none ↔
      (lastTok "https://polkrf.ru/veterans/unknown").all (fun c => !c.isDigit) = true) :=
  ⟨⟨by decide,
    (card_id_last_token_digits.2.2.1 "https://polkrf.ru/veterans/ivanov-ivan-12345"
      (by decide) (by decide)).1⟩,
    card_id_last_token_digits.2.2.2 "https://polkrf.ru/veterans/unknown"⟩

/-! ### Detail documents: the capability view of a parsed card page -/

/-- One `div.b-text-info.b-text-info-double__item` element: the raw
text of its `.b-text-info__name` child and of its
`span.b-text-info__text` child, each absent when the selector finds
nothing (src lines 106-110). -/
structure InfoItem where
  label : Option String
  value : Option String
deriving DecidableEq

/-- The `a` element found inside one direct child of the medals
slider: the raw texts of its children (in BeautifulSoup every child
node carries `get_text`, so the code's `getattr` filter keeps all of
them) and the link's own text (src lines 145-152). -/
structure RewardLink where
  children : List String
  text : String
deriving DecidableEq

/-- One direct child of the medals slider container: its inner `a`
element when `find` locates one, and its own text (src lines 143-154). -/
structure RewardChild where
  link : Option RewardLink
  text : String
deriving DecidableEq

/-- The selector results `fetch_card_details` consumes from one parsed
detail page (src lines 93-157): the children texts of
`span.b-title-1__inner`, the label/value info pairs, the operation
link texts, the first biography paragraph text, and the medal slider
children. -/
structure DetailDoc where
  name_span : Option (List String)
  info_items : List InfoItem
  ops : List String
  bio_p : Option String
  rewards_container : Option (List RewardChild)
deriving DecidableEq

/-- The record `fetch_card_details` returns (src lines 75-85). -/
@[ext]
structure Details where
  card_id : String
  veteran_name : String
  birth_date : String
  birth_place : String
  death_date : String
  death_place : String
  operations : String
  biography : String
  rewards : String
deriving DecidableEq

/-- The record as initialized (src lines 75-85): the id derived from
the URL, every other field the empty string. -/
def detailsInit (card_url : String) : Details :=
  { card_id := (extract_card_id card_url).getD "", veteran_name := ""
    birth_date := "", birth_place := "", death_date := "", death_place := ""
    operations := "", biography := "", rewards := "" }

/-- Name extraction (src lines 96-103): join the first two non-empty
cleaned child texts of the title span with one space. -/
def applyName (ns : Option (List String)) (d : Details) : Details :=
  match ns with
  | none => d
  | some children =>
    let ts := (children.map cleanText).filter (· ≠ "")
    { d with veteran_name := " ".intercalate (ts.take 2) }

/-- One iteration of the birth/death info loop (src lines 106-121):
skip pairs with an empty cleaned label or value, otherwise assign the
value to the field selected by the lower-cased label's first matching
Russian substring. -/
def applyInfoItem (d : Details) (it : InfoItem) : Details :=
  let label := cleanText (it.label.getD "")
  let value := cleanText (it.value.getD "")
  if label = "" ∨ value = "" then d
  else
    let ll := lowerStr label
    if substrOf "дата рождения" ll then { d with birth_date := value }
    else if substrOf "место рождения" ll then { d with birth_place := value }
    else if substrOf "дата смерти" ll then { d with death_date := value }
    else if substrOf "место смерти" ll || substrOf "место гибели" ll then
      { d with death_place := value }
    else d

/-- Operations list (src lines 124-130): clean each link text, drop
empties, join with `"; "` only when something remains. -/
def applyOps (ops : List String) (d : Details) : Details :=
  let v := (ops.map cleanText).filter (· ≠ "")
  if v = [] then d else { d with operations := "; ".intercalate v }

/-- Biography paragraph (src lines 133-135). -/
def applyBio (b : Option String) (d : Details) : Details :=
  match b with
  | none => d
  | some t => { d with biography := cleanText t }

/-- Text taken from one medals slider child (src lines 143-154):
prefer the second child of the inner link when it has at least two,
else the link's own text, else the child's own text. -/
def rewardText (c : RewardChild) : String :=
  match c.link with
  | some link =>
    if 2 ≤ link.children.length then cleanText (link.children.getD 1 "")
    else cleanText link.text
  | none => cleanText c.text

/-- Rewards block (src lines 138-157). -/
def applyRewards (rc : Option (List RewardChild)) (d : Details) : Details :=
  match rc with
  | none => d
  | some children =>
    let rs := (children.map rewardText).filter (· ≠ "")
    if rs = [] then d else { d with rewards := "; ".intercalate rs }

/-- `fetch_card_details` (src lines 69-159).  `doc?` is the parsed
page, `none` when the HTTP fetch raised (src lines 87-91), in which
case the initial record is returned unchanged; otherwise the source's
blocks update the record in sequence. -/
def fetch_card_details (card_url : String) (doc? : Option DetailDoc) : Details :=
  match doc? with
  | none => detailsInit card_url
  | some doc =>
    applyRewards doc.rewards_container
      (applyBio doc.bio_p
        (applyOps doc.ops
          (doc.info_items.foldl applyInfoItem
            (applyName doc.name_span (detailsInit card_url)))))

/-! ### Derived views of the detail extractor -/

/-- The four categories of the birth/death info block. -/
inductive Cat
  | birthDate
  | birthPlace
  | deathDate
  | deathPlace
deriving DecidableEq

/-- Field selected by a category. -/
def catField : Cat → Details → String
  | .birthDate, d => d.birth_date
  | .birthPlace, d => d.birth_place
  | .deathDate, d => d.death_date
  | .deathPlace, d => d.death_place

/-- Overwrite the field selected by a category. -/
def setCat : Cat → String → Details → Details
  | .birthDate, v, d => { d with birth_date := v }
  | .birthPlace, v, d => { d with birth_place := v }
  | .deathDate, v, d => { d with death_date := v }
  | .deathPlace, v, d => { d with death_place := v }

/-- Cleaned value of an info pair. -/
def itemValue (it : InfoItem) : String := cleanText (it.value.getD "")

/-- Which category, if any, an info pair matches: the code's `elif`
chain on the lower-cased collapsed label, skipping pairs with an empty
label or value. -/
def category (it : InfoItem) : Option Cat :=
  let label := cleanText (it.label.getD "")
  if label = "" ∨ itemValue it = "" then none
  else
    let ll := lowerStr label
    if substrOf "дата рождения" ll then some .birthDate
    else if substrOf "место рождения" ll then some .birthPlace
    else if substrOf "дата смерти" ll then some .deathDate
    else if substrOf "место смерти" ll || substrOf "место гибели" ll then
      some .deathPlace
    else none

/-- The cleaned value of the last pair matching a category. -/
def lastCatValue (c : Cat) (items : List InfoItem) : Option String :=
  (items.filterMap fun it =>
    if category it = some c then some (itemValue it) else none).getLast?

/-- Cleaned non-empty child texts of the title span, first two. -/
def nameValue (children : List String) : String :=
  " ".intercalate (((children.map cleanText).filter (· ≠ "")).take 2)

/-- Name field as a function of the title span selector result. -/
def nameValueOpt (ns : Option (List String)) : String :=
  match ns with
  | none => ""
  | some children => nameValue children

/-- Join with `"; "`, the empty list giving the empty string. -/
def joinNE (l : List String) : String :=
  if l = [] then "" else "; ".intercalate l

/-- Cleaned non-empty operation link texts. -/
def opsValue (ops : List String) : List String :=
  (ops.map cleanText).filter (· ≠ "")

/-- Biography field as a function of the paragraph selector result. -/
def bioValue (b : Option String) : String :=
  match b with
  | none => ""
  | some t => cleanText t

/-- Cleaned non-empty reward texts. -/
def rewardsValue (children : List RewardChild) : List String :=
  (children.map rewardText).filter (· ≠ "")

/-- Rewards field as a function of the slider selector result. -/
def rewValue (rc : Option (List RewardChild)) : String :=
  match rc with
  | none => ""
  | some children => joinNE (rewardsValue children)

/-! ### Lemmas about the detail extractor -/

theorem applyInfoItem_eq (d : Details) (it : InfoItem) :
    applyInfoItem d it =
      match category it with
      | none => d
      | some c => setCat c (itemValue it) d := by
  simp only [applyInfoItem, category, itemValue]
  split_ifs <;> rfl

theorem catField_setCat_self (c : Cat) (v : String) (d : Details) :
    catField c (setCat c v d) = v := by
  cases c <;> rfl

theorem catField_setCat_ne (c c' : Cat) (v : String) (d : Details) (h : c ≠ c') :
    catField c (setCat c' v d) = catField c d := by
  cases c <;> cases c' <;> first | rfl | exact absurd rfl h

theorem setCat_card_id (c : Cat) (v : String) (d : Details) :
    (setCat c v d).card_id = d.card_id := by
  cases c <;> rfl

theorem setCat_veteran_name (c : Cat) (v : String) (d : Details) :
    (setCat c v d).veteran_name = d.veteran_name := by
  cases c <;> rfl

theorem setCat_operations (c : Cat) (v : String) (d : Details) :
    (setCat c v d).operations = d.operations := by
  cases c <;> rfl

theorem setCat_biography (c : Cat) (v : String) (d : Details) :
    (setCat c v d).biography = d.biography := by
  cases c <;> rfl

theorem setCat_rewards (c : Cat) (v : String) (d : Details) :
    (setCat c v d).rewards = d.rewards := by
  cases c <;> rfl

theorem applyInfoItem_card_id (d : Details) (it : InfoItem) :
    (applyInfoItem d it).card_id = d.card_id := by
  rw [applyInfoItem_eq]
  cases hc : category it
  · rfl
  · exact setCat_card_id _ _ d

theorem applyInfoItem_veteran_name (d : Details) (it : InfoItem) :
    (applyInfoItem d it).veteran_name = d.veteran_name := by
  rw [applyInfoItem_eq]
  cases hc : category it
  · rfl
  · exact setCat_veteran_name _ _ d

theorem applyInfoItem_operations (d : Details) (it : InfoItem) :
    (applyInfoItem d it).operations = d.operations := by
  rw [applyInfoItem_eq]
  cases hc : category it
  · rfl
  · exact setCat_operations _ _ d

theorem applyInfoItem_biography (d : Details) (it : InfoItem) :
    (applyInfoItem d it).biography = d.biography := by
  rw [applyInfoItem_eq]
  cases hc : category it
  · rfl
  · exact setCat_biography _ _ d

theorem applyInfoItem_rewards (d : Details) (it : InfoItem) :
    (applyInfoItem d it).rewards = d.rewards := by
  rw [applyInfoItem_eq]
  cases hc : category it
  · rfl
  · exact setCat_rewards _ _ d

theorem foldl_applyInfoItem_card_id (items : List InfoItem) : ∀ d : Details,
    (items.foldl applyInfoItem d).card_id = d.card_id := by
  induction items with
  | nil => intro d; rfl
  | cons it items ih =>
    intro d
    rw [List.foldl_cons, ih, applyInfoItem_card_id]

theorem foldl_applyInfoItem_veteran_name (items : List InfoItem) : ∀ d : Details,
    (items.foldl applyInfoItem d).veteran_name = d.veteran_name := by
  induction items with
  | nil => intro d; rfl
  | cons it items ih =>
    intro d
    rw [List.foldl_cons, ih, applyInfoItem_veteran_name]

theorem foldl_applyInfoItem_operations (items : List InfoItem) : ∀ d : Details,
    (items.foldl applyInfoItem d).operations = d.operations := by
  induction items with
  | nil => intro d; rfl
  | cons it items ih =>
    intro d
    rw [List.foldl_cons, ih, applyInfoItem_operations]

theorem foldl_applyInfoItem_biography (items : List InfoItem) : ∀ d : Details,
    (items.foldl applyInfoItem d).biography = d.biography := by
  induction items with
  | nil => intro d; rfl
  | cons it items ih =>
    intro d
    rw [List.foldl_cons, ih, applyInfoItem_biography]

theorem foldl_applyInfoItem_rewards (items : List InfoItem) : ∀ d : Details,
    (items.foldl applyInfoItem d).rewards = d.rewards := by
  induction items with
  | nil => intro d; rfl
  | cons it items ih =>
    intro d
    rw [List.foldl_cons, ih, applyInfoItem_rewards]

theorem getLast?_cons_getD (a : String) (l : List String) (x : String) :
    ((a :: l).getLast?).getD x = (l.getLast?).getD a := by
  cases l with
  | nil => rfl
  | cons b t =>
    rw [List.getLast?_cons_cons]
    cases h : (b :: t).getLast? with
    | none =>
      exact absurd (List.getLast?_eq_none_iff.mp h) (by simp)
    | some y => rfl

theorem applyInfoItem_of_category_none (d : Details) (it : InfoItem)
    (hc : category it = none) : applyInfoItem d it = d := by
  rw [applyInfoItem_eq, hc]

theorem applyInfoItem_of_category_some (d : Details) (it : InfoItem) (c : Cat)
    (hc : category it = some c) : applyInfoItem d it = setCat c (itemValue it) d := by
  rw [applyInfoItem_eq, hc]

theorem lastCatValue_cons_none (c : Cat) (it : InfoItem) (items : List InfoItem)
    (hc : category it = none) :
    lastCatValue c (it :: items) = lastCatValue c items := by
  simp [lastCatValue, List.filterMap_cons, hc]

theorem lastCatValue_cons_ne (c c' : Cat) (it : InfoItem) (items : List InfoItem)
    (hc : category it = some c') (h : c' ≠ c) :
    lastCatValue c (it :: items) = lastCatValue c items := by
  simp [lastCatValue, List.filterMap_cons, hc, h]

theorem lastCatValue_cons_self (c : Cat) (it : InfoItem) (items : List InfoItem)
    (hc : category it = some c) :
    lastCatValue c (it :: items) =
      some ((lastCatValue c items).getD (itemValue it)) := by
  simp [lastCatValue, List.filterMap_cons, hc, List.getLast?_cons]

theorem foldl_applyInfoItem_cat (c : Cat) (items : List InfoItem) : ∀ d : Details,
    catField c (items.foldl applyInfoItem d) =
      (lastCatValue c items).getD (catField c d) := by
  induction items with
  | nil => intro d; rfl
  | cons it items ih =>
    intro d
    rw [List.foldl_cons, ih]
    cases hc : category it with
    | none =>
      rw [applyInfoItem_of_category_none d it hc, lastCatValue_cons_none c it items hc]
    | some c' =>
      by_cases hcc : c' = c
      · subst hcc
        rw [applyInfoItem_of_category_some d it c' hc, catField_setCat_self,
          lastCatValue_cons_self c' it items hc]
        rfl
      · rw [applyInfoItem_of_category_some d it c' hc,
          catField_setCat_ne c c' _ d fun h => hcc h.symm,
          lastCatValue_cons_ne c c' it items hc hcc]

theorem applyName_eq (ns : Option (List String)) (d : Details) :
    applyName ns d =
      { d with veteran_name :=
          match ns with
          | none => d.veteran_name
          | some ch => nameValue ch } := by
  cases ns <;> rfl

theorem applyOps_eq (ops : List String) (d : Details) :
    applyOps ops d =
      { d with operations :=
          if opsValue ops = [] then d.operations
          else "; ".intercalate (opsValue ops) } := by
  simp only [applyOps, opsValue]
  by_cases h : (ops.map cleanText).filter (· ≠ "") = []
  · rw [if_pos h, if_pos h]
  · rw [if_neg h, if_neg h]

theorem applyBio_eq (b : Option String) (d : Details) :
    applyBio b d =
      { d with biography :=
          match b with
          | none => d.biography
          | some t => cleanText t } := by
  cases b <;> rfl

theorem applyRewards_eq (rc : Option (List RewardChild)) (d : Details) :
    applyRewards rc d =
      { d with rewards :=
          match rc with
          | none => d.rewards
          | some ch =>
            if rewardsValue ch = [] then d.rewards
            else "; ".intercalate (rewardsValue ch) } := by
  cases rc with
  | none => rfl
  | some ch =>
    simp only [applyRewards, rewardsValue]
    by_cases h : (ch.map rewardText).filter (· ≠ "") = []
    · rw [if_pos h, if_pos h]
    · rw [if_neg h, if_neg h]

theorem fd_none (card_url : String) :
    fetch_card_details card_url none = detailsInit card_url := rfl

theorem fd_card_id (card_url : String) (doc? : Option DetailDoc) :
    (fetch_card_details card_url doc?).card_id = (extract_card_id card_url).getD "" := by
  cases doc? with
  | none => rfl
  | some doc =>
    simp only [fetch_card_details, applyRewards_eq, applyBio_eq, applyOps_eq,
      applyName_eq, foldl_applyInfoItem_card_id, detailsInit]

theorem fd_veteran_name (card_url : String) (doc : DetailDoc) :
    (fetch_card_details card_url (some doc)).veteran_name =
      nameValueOpt doc.name_span := by
  simp only [fetch_card_details, applyRewards_eq, applyBio_eq, applyOps_eq,
    applyName_eq, foldl_applyInfoItem_veteran_name, detailsInit, nameValueOpt]

theorem fd_operations (card_url : String) (doc : DetailDoc) :
    (fetch_card_details card_url (some doc)).operations = joinNE (opsValue doc.ops) := by
  simp only [fetch_card_details, applyRewards_eq, applyBio_eq, applyOps_eq,
    applyName_eq, foldl_applyInfoItem_operations, detailsInit, joinNE]

theorem fd_biography (card_url : String) (doc : DetailDoc) :
    (fetch_card_details card_url (some doc)).biography = bioValue doc.bio_p := by
  simp only [fetch_card_details, applyRewards_eq, applyBio_eq, applyOps_eq,
    applyName_eq, foldl_applyInfoItem_biography, detailsInit, bioValue]

theorem fd_rewards (card_url : String) (doc : DetailDoc) :
    (fetch_card_details card_url (some doc)).rewards =
      rewValue doc.rewards_container := by
  simp only [fetch_card_details, applyRewards_eq, applyBio_eq, applyOps_eq,
    applyName_eq, foldl_applyInfoItem_rewards, detailsInit, rewValue, joinNE]

theorem foldl_applyInfoItem_birth_date (items : List InfoItem) (d : Details) :
    (items.foldl applyInfoItem d).birth_date =
      (lastCatValue Cat.birthDate items).getD d.birth_date :=
  foldl_applyInfoItem_cat Cat.birthDate items d

theorem foldl_applyInfoItem_birth_place (items : List InfoItem) (d : Details) :
    (items.foldl applyInfoItem d).birth_place =
      (lastCatValue Cat.birthPlace items).getD d.birth_place :=
  foldl_applyInfoItem_cat Cat.birthPlace items d

theorem foldl_applyInfoItem_death_date (items : List InfoItem) (d : Details) :
    (items.foldl applyInfoItem d).death_date =
      (lastCatValue Cat.deathDate items).getD d.death_date :=
  foldl_applyInfoItem_cat Cat.deathDate items d

theorem foldl_applyInfoItem_death_place (items : List InfoItem) (d : Details) :
    (items.foldl applyInfoItem d).death_place =
      (lastCatValue Cat.deathPlace items).getD d.death_place :=
  foldl_applyInfoItem_cat Cat.deathPlace items d

theorem fd_birth_date (card_url : String) (doc : DetailDoc) :
    (fetch_card_details card_url (some doc)).birth_date =
      (lastCatValue Cat.birthDate doc.info_items).getD "" := by
  simp only [fetch_card_details, applyRewards_eq, applyBio_eq, applyOps_eq,
    applyName_eq, detailsInit, foldl_applyInfoItem_birth_date]

theorem fd_birth_place (card_url : String) (doc : DetailDoc) :
    (fetch_card_details card_url (some doc)).birth_place =
      (lastCatValue Cat.birthPlace doc.info_items).getD "" := by
  simp only [fetch_card_details, applyRewards_eq, applyBio_eq, applyOps_eq,
    applyName_eq, detailsInit, foldl_applyInfoItem_birth_place]

theorem fd_death_date (card_url : String) (doc : DetailDoc) :
    (fetch_card_details card_url (some doc)).death_date =
      (lastCatValue Cat.deathDate doc.info_items).getD "" := by
  simp only [fetch_card_details, applyRewards_eq, applyBio_eq, applyOps_eq,
    applyName_eq, detailsInit, foldl_applyInfoItem_death_date]

theorem fd_death_place (card_url : String) (doc : DetailDoc) :
    (fetch_card_details card_url (some doc)).death_place =
      (lastCatValue Cat.deathPlace doc.info_items).getD "" := by
  simp only [fetch_card_details, applyRewards_eq, applyBio_eq, applyOps_eq,
    applyName_eq, detailsInit, foldl_applyInfoItem_death_place]

theorem fd_catField (card_url : String) (doc : DetailDoc) (c : Cat) :
    catField c (fetch_card_details card_url (some doc)) =
      (lastCatValue c doc.info_items).getD "" := by
  cases c with
  | birthDate => exact fd_birth_date card_url doc
  | birthPlace => exact fd_birth_place card_url doc
  | deathDate => exact fd_death_date card_url doc
  | deathPlace => exact fd_death_place card_url doc

theorem filterMap_filter_none {α β} (f : α → Option β) (p : α → Bool)
    (h : ∀ a, p a = false → f a = none) :
    ∀ l : List α, (l.filter p).filterMap f = l.filterMap f := by
  intro l
  induction l with
  | nil => rfl
  | cons a t ih =>
    rw [List.filter_cons]
    by_cases hp : p a = true
    · rw [if_pos hp, List.filterMap_cons, List.filterMap_cons, ih]
    · rw [if_neg hp, ih, List.filterMap_cons,
        h a (by simpa using hp)]

theorem lastCatValue_filter_self (c : Cat) (items : List InfoItem) :
    lastCatValue c (items.filter fun it => category it ≠ some c) = none := by
  simp only [lastCatValue]
  have hnil : (items.filter fun it => category it ≠ some c).filterMap
      (fun it => if category it = some c then some (itemValue it) else none) = [] := by
    rw [List.filterMap_eq_nil_iff]
    intro it hit
    have hm := (List.mem_filter.mp hit).2
    rw [if_neg (by simpa using hm)]
  rw [hnil]
  rfl

theorem lastCatValue_filter_ne (c c' : Cat) (h : c' ≠ c) (items : List InfoItem) :
    lastCatValue c' (items.filter fun it => category it ≠ some c) =
      lastCatValue c' items := by
  simp only [lastCatValue]
  rw [filterMap_filter_none]
  intro it hp
  have hc : category it = some c := by simpa using hp
  rw [hc, if_neg (by intro hh; exact h (Option.some.inj hh).symm)]

/-! ### Claim C1 -/

/-- C1 counterexample.  The claim states that for each category the
first matching label/value pair determines the output field and later
matches do not overwrite.  Here two pairs both match the date-of-birth
label (the first with an upper-case initial, matched case-insensitively);
the code's plain assignment keeps the second pair's value `"2"`, not
the first pair's `"1"`. -/
theorem detail_first_match_refuted :
    category { label := some "Дата рождения", value := some "1" } =
      some Cat.birthDate ∧
    itemValue { label := some "Дата рождения", value := some "1" } = "1" ∧
    category { label := some "дата рождения", value := some "2" } =
      some Cat.birthDate ∧
    (fetch_card_details "https://polkrf.ru/veterans/ivanov-1"
        (some { name_span := none
                info_items := [{ label := some "Дата рождения", value := some "1" },
                               { label := some "дата рождения", value := some "2" }]
                ops := []
                bio_p := none
                rewards_container := none })).birth_date = "2" ∧
    ("2" : String) ≠ "1" := by
  refine ⟨?_, ?_, ?_, ?_, ?_⟩ <;> decide

/-- C1 (amended): for every detail document, birth/death label/value
pairs are matched case-insensitively against the fixed Russian
substrings for date of birth, place of birth, date of death and place
of death (two accepted spellings for place of death), and for each
category the LAST matching pair determines the output field — a later
pair matching the same category overwrites the value set by an earlier
one; the field is empty when no pair matches.  `category` and
`lastCatValue` encode exactly the code's matching chain. -/
theorem detail_labels_last_match_wins (card_url : String) (doc : DetailDoc)
    (c : Cat) :
    catField c (fetch_card_details card_url (some doc)) =
      (lastCatValue c doc.info_items).getD "" :=
  fd_catField card_url doc c

/-! ### Claim C7 -/

/-- C7: detail extraction is total and per-field independent.  Removing
the markup a given optional field is read from makes that output field
the empty string and leaves every other field exactly as extracted from
the unmodified document; for the four birth/death categories, dropping
the pairs matching a category empties exactly that category's field.
(Totality of the embedding mirrors the source's never-raising
extraction: every lookup failure is an `Option`/empty-list case.) -/
theorem detail_fields_independent (card_url : String) (doc : DetailDoc) :
    (fetch_card_details card_url (some { doc with name_span := none }) =
      { fetch_card_details card_url (some doc) with veteran_name := "" }) ∧
    (fetch_card_details card_url (some { doc with ops := [] }) =
      { fetch_card_details card_url (some doc) with operations := "" }) ∧
    (fetch_card_details card_url (some { doc with bio_p := none }) =
      { fetch_card_details card_url (some doc) with biography := "" }) ∧
    (fetch_card_details card_url (some { doc with rewards_container := none }) =
      { fetch_card_details card_url (some doc) with rewards := "" }) ∧
    (∀ c : Cat,
      fetch_card_details card_url
          (some { doc with
            info_items := doc.info_items.filter fun it => category it ≠ some c }) =
        setCat c "" (fetch_card_details card_url (some doc))) := by
  refine ⟨?_, ?_, ?_, ?_, ?_⟩
  · apply Details.ext <;>
      simp [fd_card_id, fd_veteran_name, fd_birth_date, fd_birth_place,
        fd_death_date, fd_death_place, fd_operations, fd_biography, fd_rewards,
        nameValueOpt]
  · apply Details.ext <;>
      simp [fd_card_id, fd_veteran_name, fd_birth_date, fd_birth_place,
        fd_death_date, fd_death_place, fd_operations, fd_biography, fd_rewards,
        opsValue, joinNE]
  · apply Details.ext <;>
      simp [fd_card_id, fd_veteran_name, fd_birth_date, fd_birth_place,
        fd_death_date, fd_death_place, fd_operations, fd_biography, fd_rewards,
        bioValue]
  · apply Details.ext <;>
      simp [fd_card_id, fd_veteran_name, fd_birth_date, fd_birth_place,
        fd_death_date, fd_death_place, fd_operations, fd_biography, fd_rewards,
        rewValue]
  · intro c
    have hcat : ∀ c' : Cat,
        catField c' (fetch_card_details card_url (some { doc with
          info_items := doc.info_items.filter fun it => category it ≠ some c })) =
        catField c' (setCat c "" (fetch_card_details card_url (some doc))) := by
      intro c'
      by_cases hcc : c' = c
      · subst hcc
        rw [fd_catField, catField_setCat_self]
        dsimp only
        rw [lastCatValue_filter_self]
        rfl
      · rw [fd_catField, catField_setCat_ne c' c "" _ hcc, fd_catField]
        dsimp only
        rw [lastCatValue_filter_ne c c' hcc]
    apply Details.ext
    · rw [fd_card_id, setCat_card_id, fd_card_id]
    · rw [fd_veteran_name, setCat_veteran_name, fd_veteran_name]
    · exact hcat Cat.birthDate
    · exact hcat Cat.birthPlace
    · exact hcat Cat.deathDate
    · exact hcat Cat.deathPlace
    · rw [fd_operations, setCat_operations, fd_operations]
    · rw [fd_biography, setCat_biography, fd_biography]
    · rw [fd_rewards, setCat_rewards, fd_rewards]

/-! ### Listing pages (src lines 223-263) -/

/-- One `a.b-veteran-card` anchor on a listing page: its `href`
attribute, and — when the `img.b-veteran-card__img` selector finds an
image element — that image's `src` attribute (itself optional). -/
structure Card where
  href : Option String
  img : Option (Option String)
deriving DecidableEq

/-- The loop body of `fetch_image_urls_from_page` (src lines 235-258):
skip the card on a missing or empty stripped `href`, a missing image
element, a missing or empty stripped `src`, or a resolved image URL
equal to the placeholder; otherwise yield the (image URL, card URL)
pair. -/
def processCard (c : Card) : Option (String × String) :=
  let href := pyStrip (c.href.getD "")
  if href = "" then none
  else
    let card_url := urljoin BASE_URL href
    match c.img with
    | none => none
    | some src? =>
      let src := pyStrip (src?.getD "")
      if src = "" then none
      else
        let image_url := urljoin BASE_URL src
        if image_url = PLACEHOLDER_URL then none
        else some (image_url, card_url)

/-- `fetch_image_urls_from_page` applied to one parsed listing page:
entries are appended in document order. -/
def fetch_image_urls_from_page (cards : List Card) : List (String × String) :=
  cards.filterMap processCard

/-- A card whose stripped `href`, image element and stripped `src` are
all present and non-empty. -/
def validCard (c : Card) : Bool :=
  (pyStrip (c.href.getD "") ≠ "") &&
    match c.img with
    | none => false
    | some src? => pyStrip (src?.getD "") ≠ ""

/-- The absolute image URL a card resolves to. -/
def cardImageUrl (c : Card) : String :=
  urljoin BASE_URL (pyStrip ((c.img.getD none).getD ""))

/-- The absolute detail URL a card resolves to. -/
def cardDetailUrl (c : Card) : String :=
  urljoin BASE_URL (pyStrip (c.href.getD ""))

theorem processCard_valid (c : Card) (h : validCard c = true) :
    processCard c =
      if cardImageUrl c = PLACEHOLDER_URL then none
      else some (cardImageUrl c, cardDetailUrl c) := by
  simp only [validCard, Bool.and_eq_true] at h
  obtain ⟨h1, h2⟩ := h
  cases himg : c.img with
  | none =>
    rw [himg] at h2
    simp at h2
  | some src? =>
    rw [himg] at h2
    simp only [decide_eq_true_eq] at h2
    simp only [processCard, cardImageUrl, cardDetailUrl, himg, Option.getD_some]
    rw [if_neg (by simpa using h1), if_neg h2]

/-! ### Claim C6 -/

/-- C6: for every listing document all of whose cards are well-formed
(present non-empty `href` and image `src`), the extractor outputs the
candidate (image URL, detail URL) pairs in document order and excludes
exactly those cards whose resolved image URL equals the placeholder
URL. -/
theorem listing_order_and_placeholder_filter (doc : List Card)
    (h : ∀ c ∈ doc, validCard c = true) :
    fetch_image_urls_from_page doc =
      (doc.filter fun c => cardImageUrl c ≠ PLACEHOLDER_URL).map
        fun c => (cardImageUrl c, cardDetailUrl c) := by
  induction doc with
  | nil => rfl
  | cons c t ih =>
    have hc := h c (List.mem_cons_self c t)
    have ht : ∀ x ∈ t, validCard x = true :=
      fun x hx => h x (List.mem_cons_of_mem c hx)
    simp only [fetch_image_urls_from_page] at ih ⊢
    rw [List.filterMap_cons, processCard_valid c hc, List.filter_cons]
    by_cases hpl : cardImageUrl c = PLACEHOLDER_URL
    · rw [if_pos hpl, if_neg (by simp [hpl])]
      exact ih ht
    · rw [if_neg hpl, if_pos (by simp [hpl]), List.map_cons]
      exact congrArg (List.cons (cardImageUrl c, cardDetailUrl c)) (ih ht)

/-- Witness for C6 at a concrete three-card listing page whose middle
card resolves to the placeholder image: two candidates come out, in
document order. -/
theorem listing_order_and_placeholder_filter_witness :
    fetch_image_urls_from_page
        [{ href := some "/veterans/ivanov-ivan-123", img := some (some "/img/a.jpg") },
         { href := some "/veterans/petrov-456",
           img := some (some "https://polkrf.ru/assets/index/img/veteran_card_placeholder.jpg") },
         { href := some "/veterans/sidorov-789", img := some (some "/img/c.png") }] =
      [("https://polkrf.ru/img/a.jpg", "https://polkrf.ru/veterans/ivanov-ivan-123"),
       ("https://polkrf.ru/img/c.png", "https://polkrf.ru/veterans/sidorov-789")] := by
  rw [listing_order_and_placeholder_filter _ (by decide)]
  decide

/-! ### Image download (src lines 266-298) -/

/-- An image HTTP response, reduced to what `download_image` consumes:
the declared `Content-Type` header (empty string when absent, matching
`headers.get("Content-Type", "")`). -/
structure ImageResp where
  contentType : String
deriving DecidableEq

/-- The outcomes one crawl run observes from the outside world:
`pages` is the listing fetch-and-extract per page number (`none`
models the raised exception, src lines 333-340), `detailDoc` the
parsed detail page per card URL (`none` models a failed fetch),
`imageResp` the image response per image URL (`none` models a failed
fetch), `writeOk` whether the file write at a path succeeds, and
`metaOk` whether the metadata row append for the n-th confirmed save
succeeds. -/
structure Env where
  pages : Nat → Option (List (String × String))
  detailDoc : String → Option DetailDoc
  imageResp : String → Option ImageResp
  writeOk : String → Bool
  metaOk : Nat → Bool

/-- `download_image` (src lines 266-298): `false` without a write
attempt on fetch failure or on a content type not containing
`"image"`; otherwise the extension is chosen from the content type and
the write attempted, the path being recorded in the second component
and success of the write deciding the result. -/
def download_image (env : Env) (url : String) (basename : String) :
    Bool × Option String :=
  match env.imageResp url with
  | none => (false, none)
  | some resp =>
    let ct := lowerStr resp.contentType
    if substrOf "image" ct = false then (false, none)
    else
      let ext :=
        if substrOf "png" ct then ".png"
        else if substrOf "webp" ct then ".webp"
        else if substrOf "jpeg" ct || substrOf "jpg" ct then ".jpg"
        else ".jpg"
      let path := basename ++ ext
      if env.writeOk path then (true, some path) else (false, some path)

/-! ### The crawl controller `main` (src lines 301-400) -/

/-- The mutable state of `main`'s loop, with observation lists: `rows`
the metadata rows appended so far, `files` the image paths whose
write was attempted, `attempts` the image URLs that passed the
seen-set check (one processing attempt each), `dlAttempts` the image
URLs whose download was attempted. -/
structure CrawlState where
  count : Nat
  seen : List String
  page : Nat
  rows : List Details
  files : List String
  attempts : List String
  dlAttempts : List String
deriving DecidableEq

/-- `main`'s start state (src lines 304-306). -/
def initState : CrawlState :=
  { count := 0, seen := [], page := 1, rows := [], files := []
    attempts := [], dlAttempts := [] }

/-- One iteration of the candidate loop (src lines 343-387): the
duplicate check against the seen set, the id-extraction guard, the
detail fetch (with the patch of an empty record id, src lines
359-360), the download, and on a confirmed save the counter increment
and the metadata row append (its success keyed by the save ordinal in
`metaOk`). -/
def processEntry (env : Env) (s : CrawlState) (e : String × String) : CrawlState :=
  if e.1 ∈ s.seen then s
  else
    let s1 := { s with seen := s.seen ++ [e.1], attempts := s.attempts ++ [e.1] }
    match extract_card_id e.2 with
    | none => s1
    | some card_id =>
      let details0 := fetch_card_details e.2 (env.detailDoc e.2)
      let details :=
        if details0.card_id = "" then { details0 with card_id := card_id }
        else details0
      let dl := download_image env e.1 card_id
      let s2 := { s1 with dlAttempts := s1.dlAttempts ++ [e.1]
                          files := s1.files ++ dl.2.toList }
      if dl.1 then
        let s3 := { s2 with count := s2.count + 1 }
        if env.metaOk s3.count then { s3 with rows := s3.rows ++ [details] }
        else s3
      else s2

/-- The candidate loop over one page's entries with its quota break at
the top of each iteration (src lines 343-345), returning the final
state and the trace of states after each processed candidate. -/
def processEntries (env : Env) (maxImages : Nat) (s : CrawlState) :
    List (String × String) → CrawlState × List CrawlState
  | [] => (s, [])
  | e :: rest =>
    if maxImages ≤ s.count then (s, [])
    else
      let s' := processEntry env s e
      let r := processEntries env maxImages s' rest
      (r.1, s' :: r.2)

/-- The `while` loop of `main` (src lines 332-397), fuel-indexed with
one fuel unit per page request: `some` final state when the loop exits
because the quota condition holds, `none` when the fuel runs out
first, together with the trace of intermediate states (after each
candidate and after each page advance). -/
def crawl (env : Env) (maxImages : Nat) :
    Nat → CrawlState → Option CrawlState × List CrawlState
  | 0, s => if maxImages ≤ s.count then (some s, []) else (none, [])
  | fuel + 1, s =>
    if maxImages ≤ s.count then (some s, [])
    else
      match env.pages s.page with
      | none =>
        let s' := { s with page := s.page + 1 }
        let r := crawl env maxImages fuel s'
        (r.1, s' :: r.2)
      | some entries =>
        let p := processEntries env maxImages s entries
        if p.1.count < maxImages then
          let s2 := { p.1 with page := p.1.page + 1 }
          let r := crawl env maxImages fuel s2
          (r.1, p.2 ++ s2 :: r.2)
        else (some p.1, p.2)

/-- All states one crawl run passes through, start state included. -/
def reachableStates (env : Env) (maxImages fuel : Nat) (s0 : CrawlState) :
    List CrawlState :=
  s0 :: (crawl env maxImages fuel s0).2

/-- Whether one candidate leads to a confirmed image save from state
`s`: new to the seen set, id extracted, download confirmed. -/
def entrySaved (env : Env) (s : CrawlState) (e : String × String) : Bool :=
  if e.1 ∈ s.seen then false
  else
    match extract_card_id e.2 with
    | none => false
    | some card_id => (download_image env e.1 card_id).1

/-- How many of the first `n` save ordinals have a successful metadata
append. -/
def metaCount (env : Env) (n : Nat) : Nat :=
  ((List.range n).filter fun k => env.metaOk (k + 1)).length

/-- A well-formed persisted row: non-empty, all-digit card id. -/
def RowOk (d : Details) : Bool :=
  (d.card_id ≠ "") && d.card_id.data.all Char.isDigit

/-! ### Lemmas about one candidate step -/

theorem processEntry_dup (env : Env) (s : CrawlState) (e : String × String)
    (hs : e.1 ∈ s.seen) : processEntry env s e = s := by
  unfold processEntry
  rw [if_pos hs]

theorem processEntry_noId (env : Env) (s : CrawlState) (e : String × String)
    (hs : e.1 ∉ s.seen) (hid : extract_card_id e.2 = none) :
    processEntry env s e =
      { s with seen := s.seen ++ [e.1], attempts := s.attempts ++ [e.1] } := by
  simp [processEntry, hs, hid]

theorem processEntry_new (env : Env) (s : CrawlState) (e : String × String)
    (cid : String) (hs : e.1 ∉ s.seen) (hid : extract_card_id e.2 = some cid) :
    processEntry env s e =
      (if (download_image env e.1 cid).1 then
        if env.metaOk (s.count + 1) then
          { s with count := s.count + 1
                   seen := s.seen ++ [e.1]
                   rows := s.rows ++ [fetch_card_details e.2 (env.detailDoc e.2)]
                   files := s.files ++ (download_image env e.1 cid).2.toList
                   attempts := s.attempts ++ [e.1]
                   dlAttempts := s.dlAttempts ++ [e.1] }
        else
          { s with count := s.count + 1
                   seen := s.seen ++ [e.1]
                   files := s.files ++ (download_image env e.1 cid).2.toList
                   attempts := s.attempts ++ [e.1]
                   dlAttempts := s.dlAttempts ++ [e.1] }
      else
        { s with seen := s.seen ++ [e.1]
                 files := s.files ++ (download_image env e.1 cid).2.toList
                 attempts := s.attempts ++ [e.1]
                 dlAttempts := s.dlAttempts ++ [e.1] }) := by
  have hrow : (fetch_card_details e.2 (env.detailDoc e.2)).card_id = cid := by
    rw [fd_card_id, hid]
    rfl
  have hpatch :
      (if (fetch_card_details e.2 (env.detailDoc e.2)).card_id = ""
        then { fetch_card_details e.2 (env.detailDoc e.2) with card_id := cid }
        else fetch_card_details e.2 (env.detailDoc e.2)) =
        fetch_card_details e.2 (env.detailDoc e.2) := by
    rw [if_neg]
    rw [hrow]
    exact (extract_card_id_digits e.2 cid hid).1
  simp only [processEntry, if_neg hs, hid, hpatch]

theorem processEntry_count (env : Env) (s : CrawlState) (e : String × String) :
    (processEntry env s e).count =
      s.count + if entrySaved env s e then 1 else 0 := by
  by_cases hs : e.1 ∈ s.seen
  · rw [processEntry_dup env s e hs]
    simp [entrySaved, hs]
  · cases hid : extract_card_id e.2 with
    | none =>
      rw [processEntry_noId env s e hs hid]
      simp [entrySaved, hs, hid]
    | some cid =>
      rw [processEntry_new env s e cid hs hid]
      simp only [entrySaved, if_neg hs, hid]
      by_cases hdl : (download_image env e.1 cid).1 = true
      · by_cases hmk : env.metaOk (s.count + 1) = true <;>
          simp [hdl, hmk]
      · simp [hdl]

theorem processEntry_page (env : Env) (s : CrawlState) (e : String × String) :
    (processEntry env s e).page = s.page := by
  by_cases hs : e.1 ∈ s.seen
  · rw [processEntry_dup env s e hs]
  · cases hid : extract_card_id e.2 with
    | none => rw [processEntry_noId env s e hs hid]
    | some cid =>
      rw [processEntry_new env s e cid hs hid]
      by_cases hdl : (download_image env e.1 cid).1 = true
      · by_cases hmk : env.metaOk (s.count + 1) = true <;> simp [hdl, hmk]
      · simp [hdl]

theorem processEntry_seen (env : Env) (s : CrawlState) (e : String × String) :
    (processEntry env s e).seen =
      if e.1 ∈ s.seen then s.seen else s.seen ++ [e.1] := by
  by_cases hs : e.1 ∈ s.seen
  · rw [processEntry_dup env s e hs, if_pos hs]
  · rw [if_neg hs]
    cases hid : extract_card_id e.2 with
    | none => rw [processEntry_noId env s e hs hid]
    | some cid =>
      rw [processEntry_new env s e cid hs hid]
      by_cases hdl : (download_image env e.1 cid).1 = true
      · by_cases hmk : env.metaOk (s.count + 1) = true <;> simp [hdl, hmk]
      · simp [hdl]

theorem processEntry_attempts (env : Env) (s : CrawlState) (e : String × String) :
    (processEntry env s e).attempts =
      if e.1 ∈ s.seen then s.attempts else s.attempts ++ [e.1] := by
  by_cases hs : e.1 ∈ s.seen
  · rw [processEntry_dup env s e hs, if_pos hs]
  · rw [if_neg hs]
    cases hid : extract_card_id e.2 with
    | none => rw [processEntry_noId env s e hs hid]
    | some cid =>
      rw [processEntry_new env s e cid hs hid]
      by_cases hdl : (download_image env e.1 cid).1 = true
      · by_cases hmk : env.metaOk (s.count + 1) = true <;> simp [hdl, hmk]
      · simp [hdl]

theorem processEntry_count_rows (env : Env) (s : CrawlState) (e : String × String) :
    ((processEntry env s e).count = s.count ∧ (processEntry env s e).rows = s.rows) ∨
    ((processEntry env s e).count = s.count + 1 ∧
      ((env.metaOk (s.count + 1) = true ∧
        ∃ i, extract_card_id e.2 = some i ∧
          (processEntry env s e).rows =
            s.rows ++ [fetch_card_details e.2 (env.detailDoc e.2)] ∧
          (fetch_card_details e.2 (env.detailDoc e.2)).card_id = i) ∨
       (env.metaOk (s.count + 1) = false ∧
        (processEntry env s e).rows = s.rows))) := by
  by_cases hs : e.1 ∈ s.seen
  · left
    rw [processEntry_dup env s e hs]
    exact ⟨rfl, rfl⟩
  · cases hid : extract_card_id e.2 with
    | none =>
      left
      rw [processEntry_noId env s e hs hid]
      exact ⟨rfl, rfl⟩
    | some cid =>
      have hrow : (fetch_card_details e.2 (env.detailDoc e.2)).card_id = cid := by
        rw [fd_card_id, hid]
        rfl
      by_cases hdl : (download_image env e.1 cid).1 = true
      · right
        by_cases hmk : env.metaOk (s.count + 1) = true
        · refine ⟨?_, Or.inl ⟨hmk, cid, rfl, ?_, hrow⟩⟩ <;>
            (rw [processEntry_new env s e cid hs hid]; simp [hdl, hmk])
        · refine ⟨?_, Or.inr ⟨by simpa using hmk, ?_⟩⟩ <;>
            (rw [processEntry_new env s e cid hs hid]; simp [hdl, hmk])
      · left
        rw [processEntry_new env s e cid hs hid]
        simp [hdl]

/-! ### Invariant propagation through the crawl -/

theorem processEntries_stop (env : Env) (maxImages : Nat) (s : CrawlState)
    (es : List (String × String)) (hc : maxImages ≤ s.count) :
    processEntries env maxImages s es = (s, []) := by
  cases es with
  | nil => rfl
  | cons e rest =>
    simp only [processEntries, if_pos hc]

theorem processEntries_inv (env : Env) (maxImages : Nat) (P : CrawlState → Prop)
    (hstep : ∀ s e, s.count < maxImages → P s → P (processEntry env s e)) :
    ∀ (es : List (String × String)) (s : CrawlState), P s →
      P (processEntries env maxImages s es).1 ∧
        ∀ s' ∈ (processEntries env maxImages s es).2, P s' := by
  intro es
  induction es with
  | nil =>
    intro s hP
    exact ⟨hP, by simp [processEntries]⟩
  | cons e rest ih =>
    intro s hP
    by_cases hc : maxImages ≤ s.count
    · simp only [processEntries, if_pos hc]
      exact ⟨hP, by simp⟩
    · have hP' := hstep s e (Nat.lt_of_not_le hc) hP
      have hr := ih (processEntry env s e) hP'
      simp only [processEntries, if_neg hc]
      refine ⟨hr.1, ?_⟩
      intro s' hs'
      rcases List.mem_cons.mp hs' with h | h
      · exact h ▸ hP'
      · exact hr.2 s' h

theorem crawl_inv (env : Env) (maxImages : Nat) (P : CrawlState → Prop)
    (hstep : ∀ s e, s.count < maxImages → P s → P (processEntry env s e))
    (hpage : ∀ s : CrawlState, P s → P { s with page := s.page + 1 }) :
    ∀ (fuel : Nat) (s : CrawlState), P s →
      (∀ sf, (crawl env maxImages fuel s).1 = some sf → P sf) ∧
        ∀ s' ∈ (crawl env maxImages fuel s).2, P s' := by
  intro fuel
  induction fuel with
  | zero =>
    intro s hP
    by_cases hc : maxImages ≤ s.count
    · simp only [crawl, if_pos hc]
      exact ⟨fun sf hsf => (Option.some.inj hsf) ▸ hP, by simp⟩
    · simp only [crawl, if_neg hc]
      exact ⟨fun sf hsf => absurd hsf (by simp), by simp⟩
  | succ fuel ih =>
    intro s hP
    by_cases hc : maxImages ≤ s.count
    · simp only [crawl, if_pos hc]
      exact ⟨fun sf hsf => (Option.some.inj hsf) ▸ hP, by simp⟩
    · cases hpg : env.pages s.page with
      | none =>
        have hr := ih { s with page := s.page + 1 } (hpage s hP)
        simp only [crawl, if_neg hc, hpg]
        refine ⟨hr.1, ?_⟩
        intro s' hs'
        rcases List.mem_cons.mp hs' with h | h
        · exact h ▸ hpage s hP
        · exact hr.2 s' h
      | some entries =>
        have hp := processEntries_inv env maxImages P hstep entries s hP
        by_cases hlt : (processEntries env maxImages s entries).1.count < maxImages
        · have hr := ih { (processEntries env maxImages s entries).1 with
              page := (processEntries env maxImages s entries).1.page + 1 }
            (hpage _ hp.1)
          simp only [crawl, if_neg hc, hpg, if_pos hlt]
          refine ⟨hr.1, ?_⟩
          intro s' hs'
          rcases List.mem_append.mp hs' with h | h
          · exact hp.2 s' h
          · rcases List.mem_cons.mp h with h' | h'
            · exact h' ▸ hpage _ hp.1
            · exact hr.2 s' h'
        · simp only [crawl, if_neg hc, hpg, if_neg hlt]
          exact ⟨fun sf hsf => (Option.some.inj hsf) ▸ hp.1, hp.2⟩

theorem crawl_some_ge (env : Env) (maxImages : Nat) :
    ∀ (fuel : Nat) (s : CrawlState) (sf : CrawlState),
      (crawl env maxImages fuel s).1 = some sf → maxImages ≤ sf.count := by
  intro fuel
  induction fuel with
  | zero =>
    intro s sf h
    by_cases hc : maxImages ≤ s.count
    · simp only [crawl, if_pos hc] at h
      exact (Option.some.inj h) ▸ hc
    · simp only [crawl, if_neg hc] at h
      exact absurd h (by simp)
  | succ fuel ih =>
    intro s sf h
    by_cases hc : maxImages ≤ s.count
    · simp only [crawl, if_pos hc] at h
      exact (Option.some.inj h) ▸ hc
    · cases hpg : env.pages s.page with
      | none =>
        simp only [crawl, if_neg hc, hpg] at h
        exact ih _ _ h
      | some entries =>
        by_cases hlt : (processEntries env maxImages s entries).1.count < maxImages
        · simp only [crawl, if_neg hc, hpg, if_pos hlt] at h
          exact ih _ _ h
        · simp only [crawl, if_neg hc, hpg, if_neg hlt] at h
          exact (Option.some.inj h) ▸ Nat.le_of_not_lt hlt

theorem metaCount_le (env : Env) (n : Nat) : metaCount env n ≤ n := by
  calc metaCount env n ≤ (List.range n).length := List.length_filter_le _ _
  _ = n := List.length_range n

theorem metaCount_succ (env : Env) (n : Nat) :
    metaCount env (n + 1) =
      metaCount env n + if env.metaOk (n + 1) then 1 else 0 := by
  by_cases h : env.metaOk (n + 1) = true <;>
    simp [metaCount, List.range_succ, List.filter_append, List.filter_cons, h]

/-! ### Claim C3 -/

/-- C3: in every reachable state of the crawl the quota counter is at
most the configured maximum; the counter is incremented (by one)
exactly on a candidate whose image save is confirmed; the terminal
state is reached exactly when the counter equals the maximum (any
state at or past the maximum is terminal by the first equation of
`crawl`), and candidate processing stops early within a page once the
quota is reached. -/
theorem quota_invariant_and_terminal (env : Env) (maxImages fuel : Nat)
    (s0 : CrawlState) (h0 : s0.count ≤ maxImages) :
    (∀ s ∈ reachableStates env maxImages fuel s0, s.count ≤ maxImages) ∧
    (∀ sf, (crawl env maxImages fuel s0).1 = some sf → sf.count = maxImages) ∧
    (∀ (s : CrawlState) (e : String × String),
      (processEntry env s e).count =
        s.count + if entrySaved env s e then 1 else 0) ∧
    (∀ (s : CrawlState) (es : List (String × String)), maxImages ≤ s.count →
      processEntries env maxImages s es = (s, [])) := by
  have hstep : ∀ (s : CrawlState) (e : String × String),
      s.count < maxImages → s.count ≤ maxImages →
      (processEntry env s e).count ≤ maxImages := by
    intro s e hlt _
    rw [processEntry_count]
    by_cases h : entrySaved env s e = true <;> simp [h] <;> omega
  have hinv := crawl_inv env maxImages (fun s => s.count ≤ maxImages) hstep
    (fun s h => h) fuel s0 h0
  refine ⟨?_, ?_, processEntry_count env, processEntries_stop env maxImages⟩
  · intro s hs
    rcases List.mem_cons.mp hs with h | h
    · exact h ▸ h0
    · exact hinv.2 s h
  · intro sf hsf
    exact Nat.le_antisymm (hinv.1 sf hsf)
      (crawl_some_ge env maxImages fuel s0 sf hsf)

/-- A concrete environment: every listing page returns the same two
candidates, detail fetches fail, image responses are PNG, writes and
metadata appends succeed. -/
def env0 : Env :=
  { pages := fun _ =>
      some [("https://polkrf.ru/upload/1.jpg",
             "https://polkrf.ru/veterans/ivanov-ivan-12345"),
            ("https://polkrf.ru/upload/2.jpg",
             "https://polkrf.ru/veterans/petrov-77")]
    detailDoc := fun _ => none
    imageResp := fun _ => some { contentType := "image/png" }
    writeOk := fun _ => true
    metaOk := fun _ => true }

/-- All states in a list keep the counter within the bound. -/
def allCountLe (l : List CrawlState) (m : Nat) : Prop := ∀ s ∈ l, s.count ≤ m

/-- Witness for C3: quota one, three fuel units, the two-candidate
environment; the bound holds along the whole run and a full state stops
candidate processing immediately. -/
theorem quota_invariant_and_terminal_witness :
    initState.count ≤ 1 ∧
    allCountLe (reachableStates env0 1 3 initState) 1 ∧
    processEntries env0 1 { initState with count := 1 }
        [("https://polkrf.ru/upload/9.jpg", "https://polkrf.ru/veterans/x-9")] =
      ({ initState with count := 1 }, []) :=
  ⟨by decide,
   fun s hs => (quota_invariant_and_terminal env0 1 3 initState (by decide)).1 s hs,
   (quota_invariant_and_terminal env0 1 3 initState (by decide)).2.2.2 _ _
     (by decide)⟩

/-! ### Claim C4 -/

/-- C4: along every crawl started from a consistent state, the number
of appended metadata rows equals the number of confirmed image saves
whose own metadata append succeeded — so a row can be missing exactly
for a save whose metadata write failed, and the row count never
exceeds the save counter. -/
theorem rows_eq_saves_modulo_meta (env : Env) (maxImages fuel : Nat)
    (s0 : CrawlState) (h0 : s0.rows.length = metaCount env s0.count) :
    ∀ s ∈ reachableStates env maxImages fuel s0,
      s.rows.length = metaCount env s.count ∧ s.rows.length ≤ s.count := by
  have hstep : ∀ (s : CrawlState) (e : String × String), s.count < maxImages →
      s.rows.length = metaCount env s.count →
      (processEntry env s e).rows.length =
        metaCount env (processEntry env s e).count := by
    intro s e _ hP
    rcases processEntry_count_rows env s e with ⟨hcnt, hrows⟩ | ⟨hcnt, hrest⟩
    · rw [hcnt, hrows, hP]
    · rw [hcnt, metaCount_succ]
      rcases hrest with ⟨hmk, _, _, hrows, _⟩ | ⟨hmk, hrows⟩
      · simp [hrows, List.length_append, hP, hmk]
      · simp [hrows, hP, hmk]
  have hinv := crawl_inv env maxImages
    (fun s => s.rows.length = metaCount env s.count) hstep (fun s h => h)
    fuel s0 h0
  intro s hs
  have hP : s.rows.length = metaCount env s.count := by
    rcases List.mem_cons.mp hs with h | h
    · exact h ▸ h0
    · exact hinv.2 s h
  exact ⟨hP, by rw [hP]; exact metaCount_le env s.count⟩

/-- All states in a list have row count matching the successful-append
count and bounded by the save counter. -/
def allRowsMatch (env : Env) (l : List CrawlState) : Prop :=
  ∀ s ∈ l, s.rows.length = metaCount env s.count ∧ s.rows.length ≤ s.count

/-- Witness for C4 on the concrete environment. -/
theorem rows_eq_saves_modulo_meta_witness :
    initState.rows.length = metaCount env0 initState.count ∧
    allRowsMatch env0 (reachableStates env0 1 3 initState) :=
  ⟨by decide,
   fun s hs => rows_eq_saves_modulo_meta env0 1 3 initState (by decide) s hs⟩

/-! ### Claim C5 -/

/-- C5: the seen set is membership-checked before any processing — a
candidate whose image URL is already seen leaves the state completely
untouched — the seen set grows monotonically along the run, every
attempted URL is in it, and the attempt list never repeats a URL: at
most one processing attempt per distinct image URL within a run, even
when the URL appears on several listing pages. -/
theorem seen_set_dedup_monotone (env : Env) (maxImages fuel : Nat)
    (s0 : CrawlState) (hsub : ∀ a ∈ s0.attempts, a ∈ s0.seen)
    (hnd : s0.attempts.Nodup) :
    (∀ (s : CrawlState) (e : String × String), e.1 ∈ s.seen →
      processEntry env s e = s) ∧
    (∀ s ∈ reachableStates env maxImages fuel s0,
      s0.seen.Sublist s.seen ∧ (∀ a ∈ s.attempts, a ∈ s.seen) ∧
        s.attempts.Nodup) := by
  have hstep : ∀ (s : CrawlState) (e : String × String), s.count < maxImages →
      (s0.seen.Sublist s.seen ∧ (∀ a ∈ s.attempts, a ∈ s.seen) ∧
        s.attempts.Nodup) →
      (s0.seen.Sublist (processEntry env s e).seen ∧
        (∀ a ∈ (processEntry env s e).attempts, a ∈ (processEntry env s e).seen) ∧
        (processEntry env s e).attempts.Nodup) := by
    intro s e _ h
    obtain ⟨h1, h2, h3⟩ := h
    simp only [processEntry_seen, processEntry_attempts]
    by_cases hs : e.1 ∈ s.seen
    · simp only [if_pos hs]
      exact ⟨h1, h2, h3⟩
    · simp only [if_neg hs]
      refine ⟨h1.trans (List.sublist_append_left _ _), ?_, ?_⟩
      · intro a ha
        rcases List.mem_append.mp ha with h | h
        · exact List.mem_append.mpr (Or.inl (h2 a h))
        · exact List.mem_append.mpr (Or.inr h)
      · rw [List.nodup_append]
        refine ⟨h3, List.nodup_singleton _, ?_⟩
        intro a ha hb
        rw [List.mem_singleton] at hb
        subst hb
        exact hs (h2 e.1 ha)
  have hinv := crawl_inv env maxImages _ hstep (fun s h => h) fuel s0
    ⟨List.Sublist.refl _, hsub, hnd⟩
  refine ⟨fun s e hs => processEntry_dup env s e hs, ?_⟩
  intro s hs
  rcases List.mem_cons.mp hs with h | h
  · subst h
    exact ⟨List.Sublist.refl _, hsub, hnd⟩
  · exact hinv.2 s h

/-- All states in a list extend the base seen set, keep attempts inside
it, and never repeat an attempt. -/
def allSeenOk (base : List String) (l : List CrawlState) : Prop :=
  ∀ s ∈ l, base.Sublist s.seen ∧ (∀ a ∈ s.attempts, a ∈ s.seen) ∧
    s.attempts.Nodup

/-- Witness for C5: a duplicate candidate is a no-op, and the run on
the concrete environment — whose pages repeat the same URLs — never
attempts a URL twice. -/
theorem seen_set_dedup_monotone_witness :
    processEntry env0 { initState with seen := ["https://polkrf.ru/upload/1.jpg"] }
        ("https://polkrf.ru/upload/1.jpg", "https://polkrf.ru/veterans/ivanov-ivan-12345") =
      { initState with seen := ["https://polkrf.ru/upload/1.jpg"] } ∧
    allSeenOk [] (reachableStates env0 3 4 initState) :=
  ⟨(seen_set_dedup_monotone env0 3 4 initState (by decide) (by decide)).1 _ _
     (by decide),
   fun s hs =>
     (seen_set_dedup_monotone env0 3 4 initState (by decide) (by decide)).2 s hs⟩

/-! ### Claim C8 -/

theorem processEntry_new_dlAttempts (env : Env) (s : CrawlState)
    (e : String × String) (cid : String) (hs : e.1 ∉ s.seen)
    (hid : extract_card_id e.2 = some cid) :
    (processEntry env s e).dlAttempts = s.dlAttempts ++ [e.1] := by
  rw [processEntry_new env s e cid hs hid]
  by_cases hdl : (download_image env e.1 cid).1 = true
  · by_cases hmk : env.metaOk (s.count + 1) = true <;> simp [hdl, hmk]
  · simp [hdl]

/-- C8: when the detail-page fetch fails, the returned record carries
the URL-derived id and every other field is the empty string, and the
controller still attempts image materialization for that candidate:
its download attempt is recorded and the quota counter moves exactly
according to the download's own outcome. -/
theorem detail_fetch_failure_proceeds (env : Env) (s : CrawlState)
    (e : String × String) (cid : String)
    (hs : e.1 ∉ s.seen) (hid : extract_card_id e.2 = some cid)
    (hdd : env.detailDoc e.2 = none) :
    fetch_card_details e.2 (env.detailDoc e.2) =
      { card_id := cid, veteran_name := "", birth_date := "", birth_place := ""
        death_date := "", death_place := "", operations := "", biography := ""
        rewards := "" } ∧
    (processEntry env s e).dlAttempts = s.dlAttempts ++ [e.1] ∧
    (processEntry env s e).count =
      s.count + if (download_image env e.1 cid).1 then 1 else 0 := by
  refine ⟨?_, processEntry_new_dlAttempts env s e cid hs hid, ?_⟩
  · rw [hdd, fd_none]
    simp [detailsInit, hid]
  · rw [processEntry_count]
    simp [entrySaved, hs, hid]

/-- Witness for C8: the concrete environment's detail fetches all
fail, yet the first candidate's download is attempted and counted. -/
theorem detail_fetch_failure_proceeds_witness :
    fetch_card_details "https://polkrf.ru/veterans/ivanov-ivan-12345"
        (env0.detailDoc "https://polkrf.ru/veterans/ivanov-ivan-12345") =
      { card_id := "12345", veteran_name := "", birth_date := "", birth_place := ""
        death_date := "", death_place := "", operations := "", biography := ""
        rewards := "" } ∧
    (processEntry env0 initState
        ("https://polkrf.ru/upload/1.jpg",
         "https://polkrf.ru/veterans/ivanov-ivan-12345")).dlAttempts =
      initState.dlAttempts ++ ["https://polkrf.ru/upload/1.jpg"] ∧
    (processEntry env0 initState
        ("https://polkrf.ru/upload/1.jpg",
         "https://polkrf.ru/veterans/ivanov-ivan-12345")).count =
      initState.count +
        if (download_image env0 "https://polkrf.ru/upload/1.jpg" "12345").1
        then 1 else 0 :=
  detail_fetch_failure_proceeds env0 initState
    ("https://polkrf.ru/upload/1.jpg", "https://polkrf.ru/veterans/ivanov-ivan-12345")
    "12345" (by decide) (by decide) (by decide)

/-! ### Claim C9 -/

/-- C9: an image response whose declared content type does not contain
the substring `"image"` is skipped: `download_image` reports no save
and attempts no write, and processing that candidate leaves the quota
counter, the metadata rows and the written files unchanged. -/
theorem non_image_content_skip (env : Env) (s : CrawlState)
    (e : String × String) (cid : String) (resp : ImageResp)
    (hs : e.1 ∉ s.seen) (hid : extract_card_id e.2 = some cid)
    (hresp : env.imageResp e.1 = some resp)
    (hct : substrOf "image" (lowerStr resp.contentType) = false) :
    download_image env e.1 cid = (false, none) ∧
    (processEntry env s e).count = s.count ∧
    (processEntry env s e).rows = s.rows ∧
    (processEntry env s e).files = s.files := by
  have hdl : download_image env e.1 cid = (false, none) := by
    simp [download_image, hresp, hct]
  refine ⟨hdl, ?_, ?_, ?_⟩ <;>
    (rw [processEntry_new env s e cid hs hid, hdl]; simp)

/-- Environment for C9's witness: the image response declares
`text/HTML`. -/
def env1 : Env :=
  { pages := fun _ =>
      some [("https://polkrf.ru/upload/1.jpg",
             "https://polkrf.ru/veterans/ivanov-ivan-12345")]
    detailDoc := fun _ => none
    imageResp := fun _ => some { contentType := "text/HTML" }
    writeOk := fun _ => true
    metaOk := fun _ => true }

/-- Witness for C9 at the concrete `text/HTML` response. -/
theorem non_image_content_skip_witness :
    download_image env1 "https://polkrf.ru/upload/1.jpg" "12345" = (false, none) ∧
    (processEntry env1 initState
        ("https://polkrf.ru/upload/1.jpg",
         "https://polkrf.ru/veterans/ivanov-ivan-12345")).count =
      initState.count ∧
    (processEntry env1 initState
        ("https://polkrf.ru/upload/1.jpg",
         "https://polkrf.ru/veterans/ivanov-ivan-12345")).rows =
      initState.rows ∧
    (processEntry env1 initState
        ("https://polkrf.ru/upload/1.jpg",
         "https://polkrf.ru/veterans/ivanov-ivan-12345")).files =
      initState.files :=
  non_image_content_skip env1 initState
    ("https://polkrf.ru/upload/1.jpg", "https://polkrf.ru/veterans/ivanov-ivan-12345")
    "12345" { contentType := "text/HTML" }
    (by decide) (by decide) (by decide) (by decide)

/-! ### Claim C10 -/

/-- C10: every metadata row the controller appends has a non-empty,
all-digit card id.  Id extraction only ever returns such strings; a
candidate whose detail URL yields no id is skipped with nothing
fetched or written (only the seen set and the attempt list grow); and
along every crawl from a state with well-formed rows, all persisted
rows stay well-formed. -/
theorem metadata_rows_card_id_digits (env : Env) (maxImages fuel : Nat)
    (s0 : CrawlState) (h0 : ∀ r ∈ s0.rows, RowOk r = true) :
    (∀ (url i : String), extract_card_id url = some i →
      i ≠ "" ∧ i.data.all Char.isDigit = true) ∧
    (∀ (s : CrawlState) (e : String × String), e.1 ∉ s.seen →
      extract_card_id e.2 = none →
      processEntry env s e =
        { s with seen := s.seen ++ [e.1], attempts := s.attempts ++ [e.1] }) ∧
    (∀ s ∈ reachableStates env maxImages fuel s0, ∀ r ∈ s.rows, RowOk r = true) := by
  have hstep : ∀ (s : CrawlState) (e : String × String), s.count < maxImages →
      (∀ r ∈ s.rows, RowOk r = true) →
      ∀ r ∈ (processEntry env s e).rows, RowOk r = true := by
    intro s e _ hP r hr
    rcases processEntry_count_rows env s e with ⟨_, hrows⟩ | ⟨_, hrest⟩
    · exact hP r (hrows ▸ hr)
    · rcases hrest with ⟨_, i, hid, hrows, hcard⟩ | ⟨_, hrows⟩
      · rw [hrows] at hr
        rcases List.mem_append.mp hr with h | h
        · exact hP r h
        · rw [List.mem_singleton] at h
          subst h
          have hdig := extract_card_id_digits e.2 i hid
          rw [RowOk, hcard]
          simp [hdig.1, hdig.2]
      · exact hP r (hrows ▸ hr)
  have hinv := crawl_inv env maxImages
    (fun s => ∀ r ∈ s.rows, RowOk r = true) hstep (fun s h => h) fuel s0 h0
  refine ⟨fun url i h => extract_card_id_digits url i h,
    fun s e hs hid => processEntry_noId env s e hs hid, ?_⟩
  intro s hs
  rcases List.mem_cons.mp hs with h | h
  · subst h
    exact h0
  · exact hinv.2 s h

/-- All rows in all states of a list are well-formed. -/
def allRowsDigits (l : List CrawlState) : Prop :=
  ∀ s ∈ l, ∀ r ∈ s.rows, RowOk r = true

/-- Witness for C10: a concrete id extraction, a concrete no-id skip,
and the run on the concrete environment. -/
theorem metadata_rows_card_id_digits_witness :
    (("12345" : String) ≠ "" ∧
      ("12345" : String).data.all Char.isDigit = true) ∧
    processEntry env0 initState
        ("https://polkrf.ru/upload/9.jpg", "https://polkrf.ru/veterans/unknown") =
      { initState with
          seen := initState.seen ++ ["https://polkrf.ru/upload/9.jpg"]
          attempts := initState.attempts ++ ["https://polkrf.ru/upload/9.jpg"] } ∧
    allRowsDigits (reachableStates env0 1 3 initState) :=
  ⟨(metadata_rows_card_id_digits env0 1 3 initState (by decide)).1
      "https://polkrf.ru/veterans/ivanov-ivan-12345" "12345" (by decide),
   (metadata_rows_card_id_digits env0 1 3 initState (by decide)).2.1 initState
      ("https://polkrf.ru/upload/9.jpg", "https://polkrf.ru/veterans/unknown")
      (by decide) (by decide),
   fun s hs => (metadata_rows_card_id_digits env0 1 3 initState (by decide)).2.2 s hs⟩
